import Mathlib

/-!
Verification of the couloir HTTP-tunnel relay (adrien-k/passage).

The relay core lives in `src/relay.js` (registry, pairing engine, routing) and in
the newer `RelaySocket` iteration (`src/relay/relay-socket.js`, provided unnamed)
together with the HTTP head parser `src/http.js`.  Strings are modelled as lists
of characters (`Str`); JavaScript objects used as string-keyed maps are modelled
as association lists (JS object keys are unique, so `setA` replaces).
-/

/-- Strings of the model: raw character lists (the relay works on ASCII bytes). -/
abbrev Str := List Char

/-- Convert a Lean string literal into the model representation. -/
def str (s : String) : Str := s.toList

/-- `beginsWith pat s` is true when `pat` is an initial segment of `s`. -/
def beginsWith : Str → Str → Bool
  | [], _ => true
  | _ :: _, [] => false
  | p :: ps, c :: cs => p = c && beginsWith ps cs

/-- JavaScript `s.endsWith(pat)`. -/
def endsWithL (s pat : Str) : Bool := beginsWith pat.reverse s.reverse

/-- JavaScript `s.indexOf(pat)`: index of the first occurrence of `pat` in `s`,
`none` when absent (JS returns `-1`). -/
def findSub (s pat : Str) : Option Nat :=
  match s with
  | [] => if beginsWith pat [] then some 0 else none
  | _ :: rest => if beginsWith pat s then some 0 else (findSub rest pat).map (· + 1)

/-- `s.indexOf(pat) !== -1`. -/
def containsSub (s pat : Str) : Bool := (findSub s pat).isSome

/-- A character the JavaScript regex `.` matches (anything but a line terminator). -/
def notLineTerm (c : Char) : Bool :=
  !(c = '\r' || c = '\n' || c = Char.ofNat 0x2028 || c = Char.ofNat 0x2029)

/-- The line terminator `"\r\n"`. -/
def crlf : Str := str "\r\n"

/-- The HTTP head terminator `"\r\n\r\n"` (relay.js line 156). -/
def crlf2 : Str := str "\r\n\r\n"

/-- The literal part of `HOST_MATCH = /\r\nHost: (.+)\r\n/` (relay.js line 9). -/
def hostPre : Str := str "\r\nHost: "

/-- JavaScript `s.replace(/:.*$/, "")` (relay.js line 167, relay-socket line 88):
cut from the leftmost `':'` after which every character is matched by `.`
(`.*` must reach the unanchored-`$` end of the string). -/
def stripPort : Str → Str
  | [] => []
  | c :: rest => if c = ':' && rest.all notLineTerm then [] else c :: stripPort rest

/-- Match `/\r\nHost: (.+)\r\n/` anchored at the start of `s`: the capture is the
maximal run of `.`-matched characters after `"\r\nHost: "`, nonempty and followed
immediately by `"\r\n"` (no shorter capture can succeed since every capture
character is a non-terminator and the regex next demands `'\r'`). -/
def hostMatchHere (s : Str) : Option Str :=
  if beginsWith hostPre s then
    if (s.drop hostPre.length).takeWhile notLineTerm ≠ [] ∧
        beginsWith crlf ((s.drop hostPre.length).drop
          ((s.drop hostPre.length).takeWhile notLineTerm).length) = true then
      some ((s.drop hostPre.length).takeWhile notLineTerm)
    else none
  else none

/-- `head.match(HOST_MATCH)`: the regex engine tries each start position left to
right (relay.js line 164). -/
def hostMatchScan : Str → Option Str
  | [] => none
  | c :: rest =>
    match hostMatchHere (c :: rest) with
    | some cap => some cap
    | none => hostMatchScan rest

/-- Decimal digit character. -/
def digitChar (d : Nat) : Char := Char.ofNat (48 + d)

/-- Decimal rendering of a natural number, with structural fuel (the fuel
`n + 1` always suffices since `n / 10 < n` for `n ≥ 10`). -/
def natToCharsAux : Nat → Nat → Str
  | 0, _ => []
  | fuel + 1, n => if n < 10 then [digitChar n] else natToCharsAux fuel (n / 10) ++ [digitChar (n % 10)]

/-- JavaScript number-to-string interpolation for naturals. -/
def natToChars (n : Nat) : Str := natToCharsAux (n + 1) n

/-- Lookup in a string-keyed JavaScript object modelled as an association list. -/
def getA {α : Type} : List (Str × α) → Str → Option α
  | [], _ => none
  | (k, v) :: rest, k' => if k = k' then some v else getA rest k'

/-- Delete a key (JS `delete obj[k]`). -/
def eraseA {α : Type} (l : List (Str × α)) (k : Str) : List (Str × α) :=
  l.filter (fun p => p.1 ≠ k)

/-- Key assignment (JS `obj[k] = v`): object keys are unique. -/
def setA {α : Type} (l : List (Str × α)) (k : Str) (v : α) : List (Str × α) :=
  (k, v) :: eraseA l k

/-! ## The relay of `src/relay.js` -/

namespace RelayV1

/-- The per-connection record built at relay.js lines 83-95.  The underlying
socket is identified by `id`; `host`, `requestBuffer` and `busy` mirror the
fields of the JS object (`type` is passed separately where it matters). -/
structure RSock where
  id : Nat
  host : Option Str := none
  requestBuffer : Str := []
  busy : Bool := false
deriving DecidableEq, Repr

/-- The mutable state closed over by `relay(...)`: `couloirCounter`, the
`hosts`, `clients` and `keyToHost` objects (lines 21-25), plus a log `bound`
of the `(clientSocket.id, hostSocket.id)` pipe bindings made by
`bindNextSockets`, in the order they are made. -/
structure RelayState where
  couloirCounter : Nat := 0
  hosts : List (Str × List RSock) := []
  clients : List (Str × List RSock) := []
  keyToHost : List (Str × Str) := []
  bound : List (Nat × Nat) := []
deriving DecidableEq, Repr

/-- The default host name expression of relay.js line 101:
``host = `couloir${couloirCounter > 1 ? couloirCounter : ""}.${domain}` ``. -/
def defaultName (counter : Nat) (domain : Str) : Str :=
  str "couloir" ++ (if counter > 1 then natToChars counter else []) ++ str "." ++ domain

/-- Response payload sent by `sendResponse` for OPEN_COULOIR. -/
inductive OpenResp
  | ok (key host : Str)
  | err (msg : Str)
deriving DecidableEq, Repr

/-- Response payload sent by `sendResponse` for JOIN_COULOIR. -/
inductive JoinResp
  | ack
  | err (msg : Str)
deriving DecidableEq, Repr

/-- `onCouloirOpen` (relay.js lines 97-126).  The random key is an input; the
certificate warm-up and logging are side effects without registry impact.
The socket field updates (`type`, `host`) live on the connection and are
supplied separately to `onSocketEnd`. -/
def onCouloirOpen (domain : Str) (st : RelayState) (reqHost key : Str) : RelayState × OpenResp :=
  let host := if endsWithL reqHost (str "." ++ domain) then reqHost
              else defaultName st.couloirCounter domain
  if (getA st.hosts host).isSome then
    (st, .err (str "Couloir host " ++ host ++ str " is already opened"))
  else
    ({ st with
        couloirCounter := st.couloirCounter + 1,
        hosts := setA st.hosts host [],
        clients := setA st.clients host [],
        keyToHost := setA st.keyToHost key host },
     .ok key host)

/-- Set the `busy` flag of the socket object with identity `i` (the JS arrays
alias the socket objects, so `hostSocket.busy = true` is visible in
`hosts[host]`). -/
def markBusy (l : List RSock) (i : Nat) : List RSock :=
  l.map (fun s => if s.id = i then { s with busy := true } else s)

/-- `hosts[host].filter(({ busy }) => !busy)` keeping only the identities
(the loop reads nothing else from `pendingHosts`). -/
def idleIds (l : List RSock) : List Nat :=
  (l.filter (fun s => !s.busy)).map (fun s => s.id)

/-- The body of `bindNextSockets` (relay.js lines 61-76), faithfully including
that the local `pendingHosts` array is computed once per invocation and never
shortened by the `while` loop, while the recursive call recomputes it.  The
fuel only bounds the recursion: every iteration shifts one client off the
live `clients[host]` queue and none is ever added, so `clients.length + 1`
fuel is never exhausted. -/
def bindLoop : Nat → List Nat → List RSock → List RSock → List (Nat × Nat) →
    List RSock × List RSock × List (Nat × Nat)
  | 0, _, hostsArr, clientsArr, bound => (hostsArr, clientsArr, bound)
  | fuel + 1, pend, hostsArr, clientsArr, bound =>
    match clientsArr, pend with
    | c :: rest, h0 :: _ =>
      let hostsArr1 := markBusy hostsArr h0
      let bound1 := bound ++ [(c.id, h0)]
      let r := bindLoop fuel (idleIds hostsArr1) hostsArr1 rest bound1
      bindLoop fuel pend r.1 r.2.1 r.2.2
    | clientsArr, _ => (hostsArr, clientsArr, bound)

/-- `bindNextSockets(host)` (relay.js lines 61-76): pair waiting clients with
idle exposer sockets of the couloir, logging each `(client, host-socket)`
binding.  Called only when the couloir exists; otherwise a no-op. -/
def bindNextSockets (st : RelayState) (host : Str) : RelayState :=
  match getA st.hosts host, getA st.clients host with
  | some hs, some cs =>
    let r := bindLoop (cs.length + 1) (idleIds hs) hs cs st.bound
    { st with hosts := setA st.hosts host r.1,
              clients := setA st.clients host r.2.1,
              bound := r.2.2 }
  | _, _ => st

/-- `onCouloirJoin` (relay.js lines 128-143): resolve the key, push the socket
onto the couloir's exposer array, acknowledge, and trigger pairing. -/
def onCouloirJoin (st : RelayState) (key : Str) (sock : RSock) : RelayState × JoinResp :=
  match getA st.keyToHost key with
  | some host =>
    let sock' := { sock with host := some host }
    let st1 := { st with hosts := setA st.hosts host (((getA st.hosts host).getD []) ++ [sock']) }
    (bindNextSockets st1 host, .ack)
  | none => (st, .err (str "Invalid couloir key. Please restart your couloir client."))

/-- What the client-data handler does once it has a buffer (relay.js 150-181). -/
inductive RelayAction
  | keepBuffering
  | route (h : Str)
  | respond404
deriving DecidableEq, Repr

/-- The decision logic of `onSocketClientData` (relay.js lines 150-181) on the
accumulated `requestBuffer`: wait for `"\r\n\r\n"`, extract the head, run
`HOST_MATCH`, strip the port, and route or reply 404 (the 404 text is
`"HTTP/1.1 404 Not found\r\n\r\nNot found"`). -/
def clientDataAction (registered : Str → Bool) (buffer : Str) : RelayAction :=
  match findSub buffer crlf2 with
  | none => .keepBuffering
  | some i =>
    let head := buffer.take (i + 2)
    match hostMatchScan head with
    | none => .respond404
    | some hv =>
      let host := stripPort hv
      if host ≠ [] ∧ registered host = true then .route host else .respond404

/-- The state effect of `onSocketClientData` for a client socket whose
accumulated buffer is `sock.requestBuffer`: on routing, the socket is pushed
onto `clients[host]` and pairing runs; otherwise the registry is untouched. -/
def onClientBuffer (st : RelayState) (sock : RSock) : RelayState × RelayAction :=
  match clientDataAction (fun h => (getA st.hosts h).isSome) sock.requestBuffer with
  | .route h =>
    let sock' := { sock with host := some h }
    let st1 := { st with clients := setA st.clients h (((getA st.clients h).getD []) ++ [sock']) }
    (bindNextSockets st1 h, .route h)
  | a => (st, a)

/-- `closeCouloirIfEmpty` (relay.js lines 46-59): tear the couloir down iff
`hosts[host].length` is zero, purging `clients[host]` and every key mapped to
the host. -/
def closeCouloirIfEmpty (st : RelayState) (host : Str) : RelayState :=
  match getA st.hosts host with
  | some arr =>
    if arr.length > 0 then st
    else { st with
            hosts := eraseA st.hosts host,
            clients := eraseA st.clients host,
            keyToHost := st.keyToHost.filter (fun p => p.2 ≠ host) }
  | none => st

/-- The classification flag of a relay socket (relay.js lines 10-11). -/
inductive SockType
  | typeHost
  | typeClient
deriving DecidableEq, Repr

/-- The `socket.on("end")` handler (relay.js lines 185-194): when a host-typed
socket with a known couloir disconnects, evict it from the exposer array and
run `closeCouloirIfEmpty`. -/
def onSocketEnd (st : RelayState) (ty : SockType) (sockHost : Option Str) (sockId : Nat) :
    RelayState :=
  match sockHost with
  | some h =>
    if ty = .typeHost ∧ (getA st.hosts h).isSome = true then
      let arr := ((getA st.hosts h).getD []).filter (fun s => s.id ≠ sockId)
      closeCouloirIfEmpty { st with hosts := setA st.hosts h arr } h
    else st
  | none => st

/-! ### Byte-stream model for preface fidelity

`onSocketClientData` accumulates incoming TCP chunks into `requestBuffer`
until the buffer contains `"\r\n\r\n"`; at that point the data listener is
removed, so `requestBuffer` holds exactly the chunks consumed so far.  When
`bindNextSockets` later pairs the client (lines 70-73) it attaches the pipe
and writes `requestBuffer` within the same single-threaded event-loop turn;
chunks still queued in the socket and all later chunks are delivered
asynchronously, hence strictly after that write, in arrival order. -/

/-- Chunk accumulation of `onSocketClientData` (relay.js lines 155-161): returns
the consumed preface and the chunks remaining once the head terminator shows
up, `none` when the stream ends before the head completes. -/
def consumePreface : Str → List Str → Option (Str × List Str)
  | _, [] => none
  | acc, chunk :: rest =>
    let acc' := acc ++ chunk
    if containsSub acc' crlf2 then some (acc', rest) else consumePreface acc' rest

/-- The bytes the paired exposer socket receives from the client (relay.js
lines 70-73): the buffered preface written first, then the piped chunks. -/
def proxyToExposer (chunks : List Str) : Option Str :=
  (consumePreface [] chunks).map (fun pr => pr.1 ++ pr.2.flatten)

end RelayV1

/-! ## The newer relay socket (`src/relay/relay-socket.js`, unnamed part_001)
with the head parser of `src/http.js` -/

namespace V2

/-- JavaScript `s.split(sep)` for a nonempty separator.  The fuel is structural
only: every recursive step drops at least one character. -/
def splitOnAux (sep : Str) : Nat → Str → List Str
  | 0, s => [s]
  | fuel + 1, s =>
    match findSub s sep with
    | none => [s]
    | some i => s.take i :: splitOnAux sep fuel (s.drop (i + sep.length))

/-- JavaScript `s.split(sep)`. -/
def splitOn (s sep : Str) : List Str := splitOnAux sep (s.length + 1) s

/-- `parseHeaders` (http.js lines 1-11): `const [key, value] = line.split(": ")`
takes the first fragment as key and the second as value (`undefined`, i.e.
`none`, when the line has no `": "`). -/
def parseHeaders (headerLines : List Str) : List (Str × List (Option Str)) :=
  headerLines.foldl
    (fun hs line =>
      let parts := splitOn line (str ": ")
      let key := parts.headD []
      let value := parts.get? 1
      setA hs key (((getA hs key).getD []) ++ [value]))
    []

/-- The result of `parseReqHead` (http.js lines 13-18). -/
structure ReqHead where
  method : Option Str
  path : Option Str
  version : Option Str
  headers : List (Str × List (Option Str))
deriving DecidableEq, Repr

/-- `parseReqHead` (http.js lines 13-18). -/
def parseReqHead (head : Str) : ReqHead :=
  let headLines := splitOn head crlf
  let firstParts := splitOn (headLines.headD []) (str " ")
  { method := firstParts.get? 0,
    path := firstParts.get? 1,
    version := firstParts.get? 2,
    headers := parseHeaders headLines.tail }

/-- `req.headers["Host"]?.[0]?.replace(/:.*$/, "")` (relay-socket line 88). -/
def hostOf (head : Str) : Option Str :=
  match getA (parseReqHead head).headers (str "Host") with
  | none => none
  | some vals =>
    match vals.get? 0 with
    | none => none
    | some none => none
    | some (some v) => some (stripPort v)

/-- Modelled from the spec: `logo(msg)` (src/logo.js is not among the sources)
renders the ASCII banner followed verbatim by the given message. -/
def logo (msg : Str) : Str := str "couloir\n" ++ msg

/-- Modelled from the spec: `htmlResponse(headers, body, {status})` (absent from
the provided src/http.js) serves an HTML page with the given status line whose
body contains `body` verbatim. -/
def htmlResponse (body : Str) (status : Str) : Str :=
  str "HTTP/1.1 " ++ status ++ str "\r\nContent-Type: text/html\r\n\r\n<html><body><pre>" ++
    body ++ str "</pre></body></html>"

/-- The outcome of the client path of `RelaySocket.#listen` (relay-socket
lines 83-112). -/
inductive V2Action
  | hintPage (resp : Str)
  | routeTo (host : Str)
  | notFoundPage (resp : Str)
deriving DecidableEq, Repr

/-- The client routing of `RelaySocket.#listen` (relay-socket lines 83-112):
relay-domain hint page, couloir lookup, or 404 page.  `exposeCommand` stands
for `this.relay.exposeCommand()` (not among the sources). -/
def clientRoute (domain exposeCommand : Str) (registered : Str → Bool) (head : Str) : V2Action :=
  match hostOf head with
  | some host =>
    if host ≠ [] ∧ host = domain then
      .hintPage (htmlResponse
        (logo (str "\n\n  To open a new couloir, run:\n  > " ++ exposeCommand))
        (str "200 OK"))
    else if host ≠ [] ∧ registered host = true then
      .routeTo host
    else
      .notFoundPage (htmlResponse
        (logo (str "404 - Couloir \"" ++ host ++ str "\" is not open"))
        (str "404 Not found"))
  | none =>
    .notFoundPage (htmlResponse
      (logo (str "404 - Couloir \"undefined\" is not open"))
      (str "404 Not found"))

/-! ### Control-message ordering on an exposer connection -/

/-- Control messages the relay emits on exposer sockets, tagged by socket id. -/
inductive CtrlMsg
  | ackJoin (sockId : Nat)
  | ackJoinErr (sockId : Nat)
  | streamMsg (sockId : Nat)
deriving DecidableEq, Repr

/-- A couloir as the join/pairing machinery sees it: the idle exposer pool,
the pending client FIFO, and the ordered log of emitted control messages. -/
structure JoinState where
  pool : List Nat := []
  pending : List Nat := []
  log : List CtrlMsg := []
deriving DecidableEq, Repr

/-- Modelled from the spec (§4.5): the pairing loop of `relay-couloir.js`
(`addHostSocket`/`addClientSocket` are called from relay-socket but the file is
not among the sources): while the idle exposer set and the pending client FIFO
are both nonempty, take one of each (FIFO), send `STREAM` on the exposer
socket (`skipResponse`) and splice the pair. -/
def bindPairs : List Nat → List Nat → List CtrlMsg → JoinState
  | e :: es, _ :: cs, log => bindPairs es cs (log ++ [.streamMsg e])
  | pool, pending, log => { pool := pool, pending := pending, log := log }

/-- The `COULOIR_JOIN` handler (relay-socket lines 68-78): on a known key the
ACK is sent first — "Send the ACK already to ensure it goes out before the
stream starts" — and only then is the socket added to the pool and pairing
triggered. -/
def onJoin (st : JoinState) (known : Bool) (sockId : Nat) : JoinState :=
  if known then
    bindPairs (st.pool ++ [sockId]) st.pending (st.log ++ [.ackJoin sockId])
  else
    { st with log := st.log ++ [.ackJoinErr sockId] }

/-- A client enqueued on the couloir triggers pairing (spec §4.5). -/
def clientArrives (st : JoinState) (c : Nat) : JoinState :=
  bindPairs st.pool (st.pending ++ [c]) st.log

/-- Events touching one couloir: exposer joins and client arrivals. -/
inductive JoinOp
  | join (known : Bool) (sockId : Nat)
  | client (c : Nat)
deriving DecidableEq, Repr

/-- Dispatch one event. -/
def stepOp (st : JoinState) (op : JoinOp) : JoinState :=
  match op with
  | .join k i => onJoin st k i
  | .client c => clientArrives st c

/-- Run a sequence of joins and client arrivals from the fresh couloir. -/
def runOps (ops : List JoinOp) : JoinState :=
  ops.foldl stepOp {}

/-- `ackBeforeStream acks log` holds when every `STREAM` in `log` is addressed
to a socket already acknowledged (in `acks` or by an earlier `ackJoin`). -/
def ackBeforeStream (acks : List Nat) : List CtrlMsg → Bool
  | [] => true
  | .streamMsg i :: rest => i ∈ acks && ackBeforeStream acks rest
  | .ackJoin i :: rest => ackBeforeStream (i :: acks) rest
  | .ackJoinErr _ :: rest => ackBeforeStream acks rest

/-- The ack identities accumulated by scanning `log` after starting from `acks`. -/
def ackAcc (acks : List Nat) : List CtrlMsg → List Nat
  | [] => acks
  | .ackJoin i :: rest => ackAcc (i :: acks) rest
  | _ :: rest => ackAcc acks rest

end V2

/-! ## Association-list lemmas -/

theorem getA_eraseA_self {α : Type} (l : List (Str × α)) (k : Str) :
    getA (eraseA l k) k = none := by
  induction l with
  | nil => rfl
  | cons p rest ih =>
    by_cases h : p.1 = k
    · simpa [eraseA, List.filter_cons, h] using ih
    · simpa [eraseA, List.filter_cons, h, getA] using ih

theorem getA_setA_self {α : Type} (l : List (Str × α)) (k : Str) (v : α) :
    getA (setA l k v) k = some v := by
  simp [setA, getA]

theorem getA_filterSnd_ne (l : List (Str × Str)) (k h : Str) :
    ¬ getA (l.filter fun p => !decide (p.2 = h)) k = some h := by
  induction l with
  | nil => simp [getA]
  | cons p rest ih =>
    by_cases hp : p.2 = h
    · simpa [List.filter_cons, hp] using ih
    · by_cases hk : p.1 = k
      · simp [List.filter_cons, hp, getA, hk]
      · simpa [List.filter_cons, hp, getA, hk] using ih

open RelayV1 V2

/-! ## Registry claims: open, duplicate open, default names, teardown -/

/-- C7: an OPEN_COULOIR whose chosen host is already registered is answered with
exactly `{error: "Couloir host <h> is already opened"}` and leaves the registry,
the existing couloir and the counter untouched. -/
theorem duplicate_open_rejected (domain : Str) (st : RelayState) (reqHost key : Str)
    (arr : List RSock)
    (h1 : endsWithL reqHost (str "." ++ domain) = true)
    (h2 : getA st.hosts reqHost = some arr) :
    onCouloirOpen domain st reqHost key =
      (st, .err (str "Couloir host " ++ reqHost ++ str " is already opened")) := by
  simp [onCouloirOpen, h1, h2]

theorem duplicate_open_rejected_witness :
    onCouloirOpen (str "my.test")
      { couloirCounter := 1, hosts := [(str "x.my.test", [])],
        clients := [(str "x.my.test", [])], keyToHost := [(str "k0", str "x.my.test")] }
      (str "x.my.test") (str "k1") =
      ({ couloirCounter := 1, hosts := [(str "x.my.test", [])],
         clients := [(str "x.my.test", [])], keyToHost := [(str "k0", str "x.my.test")] },
       .err (str "Couloir host " ++ str "x.my.test" ++ str " is already opened")) :=
  duplicate_open_rejected (str "my.test") _ (str "x.my.test") (str "k1") []
    (by decide) (by decide)

/-- C3 counterexample: from a fresh relay on `my.test`, a first default open is
acknowledged with host `couloir.my.test`, but a second default open while the
first is still open is answered with the "already opened" error — not with
host `couloir2.my.test` as the claim states (the counter is `1`, and line 101
only appends it when it is `> 1`). -/
theorem second_default_open_errors :
    (onCouloirOpen (str "my.test") {} [] (str "k1")).2 =
        .ok (str "k1") (str "couloir.my.test")
    ∧ (onCouloirOpen (str "my.test")
          (onCouloirOpen (str "my.test") {} [] (str "k1")).1 [] (str "k2")).2 =
        .err (str "Couloir host couloir.my.test is already opened") := by decide

/-- C3 amended: when the requested host does not end in `.<domain>`, the relay
synthesizes `couloir.<domain>` while at most one open has succeeded and
`couloir<c>.<domain>` (with `c` the number of prior successful opens) once
`c ≥ 2`; a synthesized name that is still registered is rejected with the
"already opened" error rather than being given the next free index, and the
counter is monotone, incremented exactly on success. -/
theorem default_name_amended (domain : Str) (st : RelayState) (reqHost key : Str)
    (h1 : endsWithL reqHost (str "." ++ domain) = false) :
    ((getA st.hosts (defaultName st.couloirCounter domain)).isSome = true →
      onCouloirOpen domain st reqHost key =
        (st, .err (str "Couloir host " ++ defaultName st.couloirCounter domain ++
              str " is already opened")))
    ∧ (getA st.hosts (defaultName st.couloirCounter domain) = none →
      (onCouloirOpen domain st reqHost key).2 = .ok key (defaultName st.couloirCounter domain)
      ∧ (onCouloirOpen domain st reqHost key).1.couloirCounter = st.couloirCounter + 1)
    ∧ st.couloirCounter ≤ (onCouloirOpen domain st reqHost key).1.couloirCounter := by
  refine ⟨fun hreg => ?_, fun hfree => ?_, ?_⟩
  · simp [onCouloirOpen, h1, hreg]
  · simp [onCouloirOpen, h1, hfree]
  · by_cases hreg : (getA st.hosts (defaultName st.couloirCounter domain)).isSome = true
    · simp [onCouloirOpen, h1, hreg]
    · simp [onCouloirOpen, h1, hreg]

theorem default_name_amended_witness :
    (onCouloirOpen (str "my.test") {} [] (str "k1")).2 =
        .ok (str "k1") (defaultName 0 (str "my.test"))
    ∧ (onCouloirOpen (str "my.test") {} [] (str "k1")).1.couloirCounter = 0 + 1 :=
  (default_name_amended (str "my.test") {} [] (str "k1") (by decide)).2.1 (by decide)

/-- C4 counterexample: open `x.my.test`, let one client route to it (it is
pending, no exposer has joined), then let the open-control socket — a
host-typed socket whose id is not in the exposer array — disconnect.
`closeCouloirIfEmpty` checks only `hosts[host].length`, so the couloir is
deleted although a client is still pending, contradicting the claimed "iff". -/
theorem teardown_with_pending_clients :
    (getA (onClientBuffer (onCouloirOpen (str "my.test") {} (str "x.my.test") (str "k1")).1
        { id := 1, requestBuffer := str "GET / HTTP/1.1\r\nHost: x.my.test\r\n\r\n" }).1.clients
        (str "x.my.test")).map (List.map RSock.id) = some [1]
    ∧ getA (onSocketEnd
        (onClientBuffer (onCouloirOpen (str "my.test") {} (str "x.my.test") (str "k1")).1
          { id := 1, requestBuffer := str "GET / HTTP/1.1\r\nHost: x.my.test\r\n\r\n" }).1
        .typeHost (some (str "x.my.test")) 99).hosts (str "x.my.test") = none := by decide

/-- C4 amended: on an exposer-socket disconnect the couloir is deleted iff its
exposer socket array (idle and busy sockets alike), after evicting the
disconnecting socket, is empty — pending clients are not consulted; when the
couloir is deleted its key mappings are purged. -/
theorem couloir_teardown_amended (st : RelayState) (h : Str) (sockId : Nat)
    (arr : List RSock) (harr : getA st.hosts h = some arr) :
    (getA (onSocketEnd st .typeHost (some h) sockId).hosts h = none
        ↔ arr.filter (fun s => s.id ≠ sockId) = [])
    ∧ (arr.filter (fun s => s.id ≠ sockId) = [] →
        ∀ k, getA (onSocketEnd st .typeHost (some h) sockId).keyToHost k ≠ some h) := by
  have hstep : onSocketEnd st .typeHost (some h) sockId =
      closeCouloirIfEmpty
        { st with hosts := setA st.hosts h (arr.filter (fun s => s.id ≠ sockId)) } h := by
    simp [onSocketEnd, harr]
  rw [hstep]
  by_cases hf : arr.filter (fun s => s.id ≠ sockId) = []
  · rw [hf]
    refine ⟨iff_of_true ?_ rfl, fun _ k => ?_⟩
    · simp [closeCouloirIfEmpty, getA_setA_self, getA_eraseA_self]
    · simpa [closeCouloirIfEmpty, getA_setA_self] using getA_filterSnd_ne st.keyToHost k h
  · have hlen : 0 < (List.filter (fun s => !decide (s.id = sockId)) arr).length := by
      simpa using List.length_pos.mpr hf
    refine ⟨iff_of_false ?_ hf, fun hc => absurd hc hf⟩
    simp [closeCouloirIfEmpty, getA_setA_self, hlen]

theorem couloir_teardown_amended_witness :
    (getA (onSocketEnd
        { hosts := [(str "x.my.test", [{ id := 7 }])],
          clients := [(str "x.my.test", [])],
          keyToHost := [(str "k1", str "x.my.test")] }
        .typeHost (some (str "x.my.test")) 7).hosts (str "x.my.test") = none
      ↔ ([{ id := 7 }] : List RSock).filter (fun s => s.id ≠ 7) = []) ∧
    (([{ id := 7 }] : List RSock).filter (fun s => s.id ≠ 7) = [] →
      ∀ k, getA (onSocketEnd
        { hosts := [(str "x.my.test", [{ id := 7 }])],
          clients := [(str "x.my.test", [])],
          keyToHost := [(str "k1", str "x.my.test")] }
        .typeHost (some (str "x.my.test")) 7).keyToHost k ≠ some (str "x.my.test")) :=
  couloir_teardown_amended _ (str "x.my.test") 7 [{ id := 7 }] (by decide)

/-- C8 counterexample: an OPEN_COULOIR for `bad_host!.my.test` — which ends in
`.my.test` but whose label contains `_` and `!`, outside `[a-z0-9-]` — is
accepted and registered, not rejected: relay.js line 100 only checks the
suffix. -/
theorem invalid_chars_host_accepted :
    (onCouloirOpen (str "my.test") {} (str "bad_host!.my.test") (str "k1")).2 =
        .ok (str "k1") (str "bad_host!.my.test")
    ∧ getA (onCouloirOpen (str "my.test") {} (str "bad_host!.my.test") (str "k1")).1.hosts
        (str "bad_host!.my.test") = some [] := by decide

/-- C8 amended: the relay validates an explicit host name only by
`host.endsWith(".<domain>")`; every name with that suffix — whatever its
characters — is accepted and registered when free, and a name without the
suffix is replaced by the synthesized default, not rejected. -/
theorem host_suffix_only_validation (domain : Str) (st : RelayState) (reqHost key : Str)
    (h1 : endsWithL reqHost (str "." ++ domain) = true)
    (h2 : getA st.hosts reqHost = none) :
    (onCouloirOpen domain st reqHost key).2 = .ok key reqHost
    ∧ getA (onCouloirOpen domain st reqHost key).1.hosts reqHost = some []
    ∧ getA (onCouloirOpen domain st reqHost key).1.keyToHost key = some reqHost := by
  simp [onCouloirOpen, h1, h2, getA_setA_self]

theorem host_suffix_only_validation_witness :
    (onCouloirOpen (str "my.test") {} (str "UPPER_case!.my.test") (str "k1")).2 =
        .ok (str "k1") (str "UPPER_case!.my.test")
    ∧ getA (onCouloirOpen (str "my.test") {} (str "UPPER_case!.my.test") (str "k1")).1.hosts
        (str "UPPER_case!.my.test") = some []
    ∧ getA (onCouloirOpen (str "my.test") {} (str "UPPER_case!.my.test") (str "k1")).1.keyToHost
        (str "k1") = some (str "UPPER_case!.my.test") :=
  host_suffix_only_validation (str "my.test") {} (str "UPPER_case!.my.test") (str "k1")
    (by decide) (by decide)

/-! ## C1: the pairing step -/

/-- C1: the pairing step violates the claimed conservation.  From a fresh relay:
open `x.my.test`, route two clients to it (no exposer yet), then let one
exposer socket (id 10) join.  `bindNextSockets` recomputes `pendingHosts` in
its recursive call but never shortens the local `pendingHosts` of the `while`
loop, so after the recursion returns the loop pairs the second client with
`pendingHosts[0]` — the same, already-busy exposer socket.  The log shows two
bound pairs `[(1,10), (2,10)]` where the claim demands
`min(1 idle consumed, 2 clients consumed) = 1` pair and no re-selection. -/
theorem bindNextSockets_double_pairing :
    ((onCouloirJoin
        (onClientBuffer
          (onClientBuffer (onCouloirOpen (str "my.test") {} (str "x.my.test") (str "k1")).1
            { id := 1, requestBuffer := str "GET /a HTTP/1.1\r\nHost: x.my.test\r\n\r\n" }).1
          { id := 2, requestBuffer := str "GET /b HTTP/1.1\r\nHost: x.my.test\r\n\r\n" }).1
        (str "k1") { id := 10 }).1).bound = [(1, 10), (2, 10)] := by decide

/-! ## C5: preface fidelity -/

theorem consumePreface_flatten (cs : List Str) :
    ∀ acc p r, consumePreface acc cs = some (p, r) →
      p ++ r.flatten = acc ++ cs.flatten ∧ containsSub p crlf2 = true := by
  induction cs with
  | nil => intro acc p r h; simp [consumePreface] at h
  | cons c rest ih =>
    intro acc p r h
    by_cases hc : containsSub (acc ++ c) crlf2 = true
    · rw [consumePreface, if_pos hc] at h
      obtain ⟨hp, hr⟩ := Prod.mk.injEq .. ▸ Option.some.injEq .. ▸ h
      subst hp hr
      exact ⟨by simp, hc⟩
    · rw [consumePreface, if_neg hc] at h
      obtain ⟨h1, h2⟩ := ih (acc ++ c) p r h
      exact ⟨by simpa using h1, h2⟩

/-- C5: for every placement of TCP chunk boundaries on the client byte stream,
once the head terminator appears the relay has buffered a preface `P`
(containing the full head); at pairing it writes `P` to the exposer socket in
the same event-loop turn as it attaches the pipe, so the exposer peer receives
exactly `P` followed by the remaining bytes `Q` — no loss, no interleaving:
the delivered stream equals the concatenation of all client chunks. -/
theorem preface_fidelity (chunks : List Str) (P : Str) (rest : List Str)
    (h : consumePreface [] chunks = some (P, rest)) :
    proxyToExposer chunks = some (P ++ rest.flatten)
    ∧ P ++ rest.flatten = chunks.flatten
    ∧ containsSub P crlf2 = true := by
  obtain ⟨h1, h2⟩ := consumePreface_flatten chunks [] P rest h
  exact ⟨by simp [proxyToExposer, h], by simpa using h1, h2⟩

theorem preface_fidelity_witness :
    proxyToExposer [str "GET / HT", str "TP/1.1\r\nHost: x\r\n\r\nbo", str "dy"] =
        some (str "GET / HTTP/1.1\r\nHost: x\r\n\r\nbo" ++ [str "dy"].flatten)
    ∧ str "GET / HTTP/1.1\r\nHost: x\r\n\r\nbo" ++ [str "dy"].flatten =
        [str "GET / HT", str "TP/1.1\r\nHost: x\r\n\r\nbo", str "dy"].flatten
    ∧ containsSub (str "GET / HTTP/1.1\r\nHost: x\r\n\r\nbo") crlf2 = true :=
  preface_fidelity [str "GET / HT", str "TP/1.1\r\nHost: x\r\n\r\nbo", str "dy"]
    (str "GET / HTTP/1.1\r\nHost: x\r\n\r\nbo") [str "dy"] (by decide)

/-! ## C6: JOIN ACK before STREAM -/

theorem ackBeforeStream_append (l₁ l₂ : List CtrlMsg) :
    ∀ acks, ackBeforeStream acks (l₁ ++ l₂) =
      (ackBeforeStream acks l₁ && ackBeforeStream (ackAcc acks l₁) l₂) := by
  induction l₁ with
  | nil => intro acks; simp [ackBeforeStream, ackAcc]
  | cons m rest ih =>
    intro acks
    cases m with
    | ackJoin i => simp [ackBeforeStream, ackAcc, ih]
    | ackJoinErr i => simp [ackBeforeStream, ackAcc, ih]
    | streamMsg i => simp [ackBeforeStream, ackAcc, ih, Bool.and_assoc]

theorem ackAcc_append (l₁ l₂ : List CtrlMsg) :
    ∀ acks, ackAcc acks (l₁ ++ l₂) = ackAcc (ackAcc acks l₁) l₂ := by
  induction l₁ with
  | nil => intro acks; simp [ackAcc]
  | cons m rest ih =>
    intro acks
    cases m with
    | ackJoin i => simp [ackAcc, ih]
    | ackJoinErr i => simp [ackAcc, ih]
    | streamMsg i => simp [ackAcc, ih]

theorem mem_ackAcc (l : List CtrlMsg) :
    ∀ acks i, i ∈ acks → i ∈ ackAcc acks l := by
  induction l with
  | nil => intro acks i h; exact h
  | cons m rest ih =>
    intro acks i h
    cases m with
    | ackJoin j => exact ih (j :: acks) i (List.mem_cons_of_mem _ h)
    | ackJoinErr j => exact ih acks i h
    | streamMsg j => exact ih acks i h

theorem bindPairs_inv (pool : List Nat) :
    ∀ (pending : List Nat) (log : List CtrlMsg),
    ackBeforeStream [] log = true → (∀ i ∈ pool, i ∈ ackAcc [] log) →
    ackBeforeStream [] (bindPairs pool pending log).log = true
    ∧ ∀ i ∈ (bindPairs pool pending log).pool, i ∈ ackAcc [] (bindPairs pool pending log).log := by
  induction pool with
  | nil => intro pending log h1 h2; exact ⟨h1, h2⟩
  | cons e es ih =>
    intro pending log h1 h2
    cases pending with
    | nil => exact ⟨h1, h2⟩
    | cons c cs =>
      have he : e ∈ ackAcc [] log := h2 e (by simp)
      have h1' : ackBeforeStream [] (log ++ [.streamMsg e]) = true := by
        rw [ackBeforeStream_append]
        simp [ackBeforeStream, he, h1]
      have h2' : ∀ i ∈ es, i ∈ ackAcc [] (log ++ [.streamMsg e]) := by
        intro i hi
        rw [ackAcc_append]
        simpa [ackAcc] using h2 i (List.mem_cons_of_mem _ hi)
      simpa [bindPairs] using ih cs (log ++ [.streamMsg e]) h1' h2'

theorem stepOp_inv (st : JoinState) (op : JoinOp)
    (h1 : ackBeforeStream [] st.log = true)
    (h2 : ∀ j ∈ st.pool, j ∈ ackAcc [] st.log) :
    ackBeforeStream [] (stepOp st op).log = true
    ∧ ∀ j ∈ (stepOp st op).pool, j ∈ ackAcc [] (stepOp st op).log := by
  cases op with
  | client c => exact bindPairs_inv st.pool (st.pending ++ [c]) st.log h1 h2
  | join known i =>
    cases known with
    | false =>
      refine ⟨?_, ?_⟩
      · rw [stepOp, onJoin, if_neg (by simp), ackBeforeStream_append]
        simp [ackBeforeStream, h1]
      · intro j hj
        rw [stepOp, onJoin, if_neg (by simp)] at hj ⊢
        rw [ackAcc_append]
        simpa [ackAcc] using h2 j hj
    | true =>
      rw [stepOp, onJoin, if_pos rfl]
      apply bindPairs_inv
      · rw [ackBeforeStream_append]
        simp [ackBeforeStream, h1]
      · intro j hj
        rw [ackAcc_append]
        rcases List.mem_append.mp hj with hj | hj
        · simpa [ackAcc] using Or.inr (h2 j hj)
        · simp [ackAcc]
          left
          simpa using hj

theorem foldl_stepOp_inv (ops : List JoinOp) :
    ∀ st : JoinState,
    ackBeforeStream [] st.log = true → (∀ j ∈ st.pool, j ∈ ackAcc [] st.log) →
    ackBeforeStream [] (ops.foldl stepOp st).log = true := by
  induction ops with
  | nil => intro st h1 _; exact h1
  | cons op rest ih =>
    intro st h1 h2
    obtain ⟨h1', h2'⟩ := stepOp_inv st op h1 h2
    exact ih (stepOp st op) h1' h2'

/-- C6: on any exposer-side control connection of the newer relay socket, the
ACK to `JOIN_COULOIR` is emitted before the socket enters the idle pool, and
`STREAM` is only ever sent to pooled sockets — so across any sequence of joins
and client arrivals, every `STREAM` in the emitted message log is preceded by
the `ackJoin` of the same socket. -/
theorem join_ack_before_stream (ops : List JoinOp) :
    ackBeforeStream [] (runOps ops).log = true :=
  foldl_stepOp_inv ops {} (by decide) (by simp [JoinState.pool])

/-! ## String-scanning lemmas for the HOST_MATCH routing -/

theorem beginsWith_append_self (p t : Str) : beginsWith p (p ++ t) = true := by
  induction p with
  | nil => rfl
  | cons c cs ih => simpa [beginsWith] using ih

theorem beginsWith_iff (p s : Str) : beginsWith p s = true ↔ ∃ t, s = p ++ t := by
  constructor
  · induction p generalizing s with
    | nil => intro _; exact ⟨s, rfl⟩
    | cons c cs ih =>
      intro h
      cases s with
      | nil => simp [beginsWith] at h
      | cons d ds =>
        rw [beginsWith, Bool.and_eq_true, decide_eq_true_eq] at h
        obtain ⟨t, ht⟩ := ih ds h.2
        exact ⟨t, by simp [h.1, ht]⟩
  · rintro ⟨t, rfl⟩
    exact beginsWith_append_self p t

theorem beginsWith_extend (p s e : Str) (h : beginsWith p s = true) :
    beginsWith p (s ++ e) = true := by
  obtain ⟨t, rfl⟩ := (beginsWith_iff p s).mp h
  rw [List.append_assoc]
  exact beginsWith_append_self p (t ++ e)

theorem takeWhile_all_append (q : Char → Bool) (l₁ l₂ : Str) (h : ∀ c ∈ l₁, q c = true) :
    (l₁ ++ l₂).takeWhile q = l₁ ++ l₂.takeWhile q := by
  induction l₁ with
  | nil => simp
  | cons c cs ih =>
    have hc : q c = true := h c (by simp)
    simp only [List.cons_append, List.takeWhile_cons, hc, if_true]
    rw [ih (fun d hd => h d (by simp [hd]))]

theorem takeWhile_stops (q : Char → Bool) (c : Char) (l : Str) (h : q c = false) :
    (c :: l).takeWhile q = [] := by
  simp [List.takeWhile_cons, h]

theorem all_takeWhile (q : Char → Bool) (l : Str) : ∀ c ∈ l.takeWhile q, q c = true := by
  induction l with
  | nil => simp
  | cons c cs ih =>
    by_cases hc : q c = true
    · intro d hd
      rw [List.takeWhile_cons, if_pos hc] at hd
      rcases List.mem_cons.mp hd with rfl | hd
      · exact hc
      · exact ih d hd
    · intro d hd
      rw [List.takeWhile_cons, if_neg hc] at hd
      simp at hd

theorem drop_takeWhile_length (q : Char → Bool) (l : Str) :
    l.drop (l.takeWhile q).length = l.dropWhile q := by
  induction l with
  | nil => rfl
  | cons c cs ih =>
    by_cases hc : q c = true
    · simp [List.takeWhile_cons, List.dropWhile_cons, hc, ih]
    · simp [List.takeWhile_cons, List.dropWhile_cons, hc]

theorem hostMatchHere_nil : hostMatchHere [] = none := by decide

/-- `HOST_MATCH` succeeds on a well-formed host line: after `"\r\nHost: "` a
nonempty run of `.`-matched characters up to the next `"\r\n"` is captured. -/
theorem hostMatchHere_hostLine (h port tail : Str)
    (hne : h ≠ [])
    (hh : ∀ c ∈ h, notLineTerm c = true)
    (hp : ∀ c ∈ port, notLineTerm c = true) :
    hostMatchHere (hostPre ++ (h ++ (port ++ (crlf ++ tail)))) = some (h ++ port) := by
  have hbegin : beginsWith hostPre (hostPre ++ (h ++ (port ++ (crlf ++ tail)))) = true :=
    beginsWith_append_self _ _
  have hcrlf : crlf ++ tail = '\r' :: ('\n' :: tail) := rfl
  have hcap : (h ++ (port ++ (crlf ++ tail))).takeWhile notLineTerm = h ++ port := by
    rw [takeWhile_all_append notLineTerm h _ hh, takeWhile_all_append notLineTerm port _ hp,
        hcrlf, takeWhile_stops notLineTerm '\r' _ (by decide), List.append_nil]
  have hdrop2 : (h ++ (port ++ (crlf ++ tail))).drop (h ++ port).length = crlf ++ tail := by
    rw [← List.append_assoc]
    exact List.drop_left _ _
  rw [hostMatchHere, if_pos hbegin, List.drop_left, hcap, hdrop2, if_pos]
  exact ⟨fun hc => hne (List.append_eq_nil.mp hc).1, beginsWith_append_self _ _⟩

/-- A successful `HOST_MATCH` at the start of `s` survives appending more bytes
to `s` with the same capture (the capture is delimited by a `"\r\n"` already
inside `s`). -/
theorem hostMatchHere_extend (s e : Str) (cap : Str)
    (h : hostMatchHere s = some cap) : hostMatchHere (s ++ e) = some cap := by
  by_cases hb : beginsWith hostPre s = true
  case neg =>
    rw [hostMatchHere, if_neg hb] at h
    exact absurd h (by simp)
  obtain ⟨t, rfl⟩ := (beginsWith_iff hostPre s).mp hb
  rw [hostMatchHere, if_pos hb, List.drop_left] at h
  by_cases hcond : t.takeWhile notLineTerm ≠ [] ∧
      beginsWith crlf (t.drop (t.takeWhile notLineTerm).length) = true
  case neg =>
    rw [if_neg hcond] at h
    exact absurd h (by simp)
  rw [if_pos hcond] at h
  have hcapeq : t.takeWhile notLineTerm = cap := Option.some.inj h
  obtain ⟨hne, hcr⟩ := hcond
  rw [drop_takeWhile_length] at hcr
  obtain ⟨t', ht'⟩ := (beginsWith_iff crlf (t.dropWhile notLineTerm)).mp hcr
  have hsplit : t = cap ++ ('\r' :: ('\n' :: t')) := by
    conv_lhs => rw [← List.takeWhile_append_dropWhile (p := notLineTerm) (l := t)]
    rw [hcapeq, ht']
    rfl
  have hbe : beginsWith hostPre (hostPre ++ (t ++ e)) = true := by
    rw [← List.append_assoc]
    exact beginsWith_extend _ _ _ hb
  have hcapmem : ∀ c ∈ cap, notLineTerm c = true := fun c hc =>
    all_takeWhile notLineTerm t c (hcapeq ▸ hc)
  have hcap2 : (t ++ e).takeWhile notLineTerm = cap := by
    rw [hsplit, List.append_assoc,
        takeWhile_all_append notLineTerm cap _ hcapmem, List.cons_append,
        takeWhile_stops notLineTerm '\r' _ (by decide), List.append_nil]
  have hdrop3 : (t ++ e).drop cap.length = ('\r' :: ('\n' :: t')) ++ e := by
    rw [hsplit, List.append_assoc]
    exact List.drop_left _ _
  rw [List.append_assoc, hostMatchHere, if_pos hbe, List.drop_left, hcap2, hdrop3, if_pos]
  exact ⟨hcapeq ▸ hne, beginsWith_append_self crlf (t' ++ e)⟩

theorem hostMatchScan_at (s : Str) :
    ∀ (k : Nat) (cap : Str), (∀ i, i < k → hostMatchHere (s.drop i) = none) →
      hostMatchHere (s.drop k) = some cap → hostMatchScan s = some cap := by
  induction s with
  | nil =>
    intro k cap _ hk
    rw [List.drop_nil] at hk
    rw [hostMatchHere_nil] at hk
    exact absurd hk (by simp)
  | cons c cs ih =>
    intro k cap hlt hk
    cases k with
    | zero =>
      rw [List.drop_zero] at hk
      simp [hostMatchScan, hk]
    | succ j =>
      have h0 : hostMatchHere (c :: cs) = none := by
        simpa using hlt 0 (Nat.succ_pos j)
      simp only [hostMatchScan, h0]
      exact ih j cap (fun i hi => by simpa using hlt (i + 1) (Nat.succ_lt_succ hi))
        (by simpa using hk)

theorem hostMatchScan_none (s : Str)
    (h : ∀ i, i < s.length → beginsWith hostPre (s.drop i) = false) :
    hostMatchScan s = none := by
  induction s with
  | nil => rfl
  | cons c cs ih =>
    have hb : beginsWith hostPre (c :: cs) = false := by simpa using h 0 (by simp)
    have h0 : hostMatchHere (c :: cs) = none := by
      rw [hostMatchHere, if_neg (by simp [hb])]
    simp only [hostMatchScan, h0]
    exact ih (fun i hi => by simpa using h (i + 1) (by simpa using Nat.succ_lt_succ hi))

theorem stripPort_split (h port : Str)
    (hh : ∀ c ∈ h, ¬(c = ':'))
    (hp : port = [] ∨ ∃ p, port = ':' :: p ∧ ∀ c ∈ p, notLineTerm c = true) :
    stripPort (h ++ port) = h := by
  induction h with
  | nil =>
    rcases hp with rfl | ⟨p, rfl, hall⟩
    · rfl
    · rw [List.nil_append]
      simp only [stripPort]
      rw [if_pos (by simp [List.all_eq_true]; exact hall)]
  | cons c hs ih =>
    have hc : ¬(c = ':') := hh c (by simp)
    rw [List.cons_append]
    simp only [stripPort]
    rw [if_neg (by simp [hc]), ih (fun d hd => hh d (by simp [hd]))]

theorem take_append_long (x y : Str) (m : Nat) (hm : x.length ≤ m) :
    (x ++ y).take m = x ++ y.take (m - x.length) := by
  rw [List.take_append_eq_append_take, List.take_of_length_le hm]

/-! ## C2 and C10: host routing -/

/-- C2: a client whose buffered head contains a header `Host: <h>` or
`Host: <h>:<port>` is routed to the couloir registered under `<h>` (the port is
stripped) when one exists; otherwise the relay answers the 404 response and
leaves the whole relay state untouched.  The hypotheses pin the buffer shape:
the head terminator is first found at `n`, the full host line lies inside the
head, `h` is a nonempty run of `.`-matched, colon-free characters, `port` is
empty or `':'` followed by `.`-matched characters, and no position before the
host line matches `HOST_MATCH`. -/
theorem host_routing_port_strip (st : RelayState) (sock : RSock)
    (a h port b : Str) (n : Nat)
    (hbuf : sock.requestBuffer = a ++ (hostPre ++ (h ++ (port ++ (crlf ++ b)))))
    (hne : h ≠ [])
    (hh : ∀ c ∈ h, notLineTerm c = true ∧ ¬(c = ':'))
    (hp : port = [] ∨ ∃ p, port = ':' :: p ∧ ∀ c ∈ p, notLineTerm c = true)
    (hfirst : ∀ i, i < a.length → hostMatchHere (sock.requestBuffer.drop i) = none)
    (hhead : findSub sock.requestBuffer crlf2 = some n)
    (hn : a.length + (hostPre.length + (h.length + (port.length + crlf.length))) ≤ n + 2) :
    (getA st.hosts h = none → onClientBuffer st sock = (st, .respond404))
    ∧ ((getA st.hosts h).isSome = true → (onClientBuffer st sock).2 = .route h) := by
  rw [hbuf] at hfirst hhead
  have hport_ntl : ∀ c ∈ port, notLineTerm c = true := by
    rcases hp with rfl | ⟨p, rfl, hall⟩
    · simp
    · intro c hc
      rcases List.mem_cons.mp hc with rfl | hc
      · decide
      · exact hall c hc
  have htake : (hostPre ++ (h ++ (port ++ (crlf ++ b)))).take (n + 2 - a.length)
      = hostPre ++ (h ++ (port ++ (crlf ++
          b.take (n + 2 - a.length - hostPre.length - h.length - port.length - crlf.length)))) := by
    rw [take_append_long hostPre _ _ (by omega),
        take_append_long h _ _ (by omega),
        take_append_long port _ _ (by omega),
        take_append_long crlf _ _ (by omega)]
  have hmatch : hostMatchHere
      (((a ++ (hostPre ++ (h ++ (port ++ (crlf ++ b))))).take (n + 2)).drop a.length)
      = some (h ++ port) := by
    rw [List.drop_take, List.drop_left, htake]
    exact hostMatchHere_hostLine h port _ hne (fun c hc => (hh c hc).1) hport_ntl
  have hfail : ∀ i, i < a.length → hostMatchHere
      (((a ++ (hostPre ++ (h ++ (port ++ (crlf ++ b))))).take (n + 2)).drop i) = none := by
    intro i hi
    cases hm : hostMatchHere
        (((a ++ (hostPre ++ (h ++ (port ++ (crlf ++ b))))).take (n + 2)).drop i) with
    | none => rfl
    | some cap =>
      exfalso
      have hext := hostMatchHere_extend _
        (((a ++ (hostPre ++ (h ++ (port ++ (crlf ++ b))))).drop i).drop (n + 2 - i)) cap hm
      rw [List.drop_take, List.take_append_drop] at hext
      rw [hfirst i hi] at hext
      exact Option.noConfusion hext
  have hscan : hostMatchScan ((a ++ (hostPre ++ (h ++ (port ++ (crlf ++ b))))).take (n + 2))
      = some (h ++ port) :=
    hostMatchScan_at _ a.length (h ++ port) hfail hmatch
  have hstrip : stripPort (h ++ port) = h :=
    stripPort_split h port (fun c hc => (hh c hc).2) hp
  have hact : ∀ reg : Str → Bool,
      clientDataAction reg (a ++ (hostPre ++ (h ++ (port ++ (crlf ++ b)))))
      = if h ≠ [] ∧ reg h = true then .route h else .respond404 := by
    intro reg
    simp only [clientDataAction, hhead, hscan, hstrip]
  constructor
  · intro hnone
    have hact404 : clientDataAction (fun h' => (getA st.hosts h').isSome) sock.requestBuffer
        = .respond404 := by
      rw [hbuf, hact (fun h' => (getA st.hosts h').isSome)]
      simp [hnone]
    simp only [onClientBuffer, hact404]
  · intro hsome
    have hactR : clientDataAction (fun h' => (getA st.hosts h').isSome) sock.requestBuffer
        = .route h := by
      rw [hbuf, hact (fun h' => (getA st.hosts h').isSome), if_pos ⟨hne, hsome⟩]
    simp only [onClientBuffer, hactR]

theorem host_routing_port_strip_witness :
    (getA ({ hosts := [(str "x.my.test", [])], clients := [(str "x.my.test", [])] }
        : RelayState).hosts (str "x.my.test")).isSome = true
    ∧ ((onClientBuffer { hosts := [(str "x.my.test", [])], clients := [(str "x.my.test", [])] }
        { id := 1, requestBuffer := str "GET / HTTP/1.1" ++ (hostPre ++ (str "x.my.test" ++
          (str ":8080" ++ (crlf ++ str "A: b\r\n\r\nBODY")))) }).2 = .route (str "x.my.test")) :=
  ⟨by decide,
    (host_routing_port_strip
      { hosts := [(str "x.my.test", [])], clients := [(str "x.my.test", [])] }
      { id := 1, requestBuffer := str "GET / HTTP/1.1" ++ (hostPre ++ (str "x.my.test" ++
        (str ":8080" ++ (crlf ++ str "A: b\r\n\r\nBODY")))) }
      (str "GET / HTTP/1.1") (str "x.my.test") (str ":8080") (str "A: b\r\n\r\nBODY") 42
      rfl (by decide) (by decide) (Or.inr ⟨str "8080", by decide, by decide⟩)
      (by decide) (by decide) (by decide)).2 (by decide)⟩

/-- C10: the Host extraction is byte-exact: when the head (the buffer up to and
including the line before the first `"\r\n\r\n"`) contains no occurrence of the
exact bytes `"\r\nHost: "`, the relay treats the request as having no Host
header and answers 404 with the state untouched, whatever couloirs are
registered — e.g. for a lowercase `host:` header or a missing space after the
colon. -/
theorem host_header_exact_match_404 (st : RelayState) (sock : RSock) (n : Nat)
    (hhead : findSub sock.requestBuffer crlf2 = some n)
    (hnopre : ∀ i, i < (sock.requestBuffer.take (n + 2)).length →
      beginsWith hostPre ((sock.requestBuffer.take (n + 2)).drop i) = false) :
    onClientBuffer st sock = (st, .respond404) := by
  have hscan : hostMatchScan (sock.requestBuffer.take (n + 2)) = none :=
    hostMatchScan_none _ hnopre
  have hact : clientDataAction (fun h' => (getA st.hosts h').isSome) sock.requestBuffer
      = .respond404 := by
    simp only [clientDataAction, hhead, hscan]
  simp only [onClientBuffer, hact]

theorem host_header_exact_match_404_witness :
    onClientBuffer { hosts := [(str "x.my.test", [])], clients := [(str "x.my.test", [])] }
      { id := 1, requestBuffer := str "GET / HTTP/1.1\r\nhost: x.my.test\r\n\r\n" } =
      ({ hosts := [(str "x.my.test", [])], clients := [(str "x.my.test", [])] }, .respond404) :=
  host_header_exact_match_404
    { hosts := [(str "x.my.test", [])], clients := [(str "x.my.test", [])] }
    { id := 1, requestBuffer := str "GET / HTTP/1.1\r\nhost: x.my.test\r\n\r\n" }
    31 (by decide) (by decide)

/-! ## C9: relay-domain hint page -/

theorem containsSub_of_begins (s pat : Str) (h : beginsWith pat s = true) :
    containsSub s pat = true := by
  cases s with
  | nil =>
    rw [containsSub]
    simp only [findSub]
    rw [if_pos h]
    rfl
  | cons c cs =>
    rw [containsSub]
    simp only [findSub]
    rw [if_pos h]
    rfl

theorem containsSub_cons (c : Char) (s pat : Str) (h : containsSub s pat = true) :
    containsSub (c :: s) pat = true := by
  rw [containsSub]
  simp only [findSub]
  by_cases hb : beginsWith pat (c :: s) = true
  · rw [if_pos hb]
    rfl
  · rw [containsSub] at h
    rw [if_neg hb]
    cases hfs : findSub s pat with
    | none => rw [hfs] at h; exact absurd h (by simp)
    | some k => rfl

theorem containsSub_append_left (x : Str) {s pat : Str} (h : containsSub s pat = true) :
    containsSub (x ++ s) pat = true := by
  induction x with
  | nil => exact h
  | cons c xs ih => exact containsSub_cons c _ pat ih

/-- C9: a client connection whose Host header value (after port stripping)
equals the relay domain gets the informational HTML page containing the
literal string `To open a new couloir`, and the socket is then closed —
instead of couloir routing or the 404 reply. -/
theorem relay_domain_hint (domain exposeCommand : Str) (registered : Str → Bool) (head : Str)
    (h1 : hostOf head = some domain) (h2 : domain ≠ []) :
    ∃ resp, clientRoute domain exposeCommand registered head = .hintPage resp
      ∧ containsSub resp (str "To open a new couloir") = true := by
  refine ⟨htmlResponse
      (logo (str "\n\n  To open a new couloir, run:\n  > " ++ exposeCommand))
      (str "200 OK"), ?_, ?_⟩
  · simp only [clientRoute, h1]
    simp [h2]
  · have hsplit : str "\n\n  To open a new couloir, run:\n  > " =
        str "\n\n  " ++ (str "To open a new couloir" ++ str ", run:\n  > ") := by decide
    simp only [htmlResponse, logo, hsplit, List.append_assoc]
    apply containsSub_append_left
    apply containsSub_append_left
    apply containsSub_append_left
    apply containsSub_append_left
    apply containsSub_append_left
    exact containsSub_of_begins _ _ (beginsWith_append_self _ _)

theorem relay_domain_hint_witness :
    ∃ resp, clientRoute (str "my.test") (str "couloir expose 3000") (fun _ => false)
        (str "GET / HTTP/1.1\r\nHost: my.test") = .hintPage resp
      ∧ containsSub resp (str "To open a new couloir") = true :=
  relay_domain_hint (str "my.test") (str "couloir expose 3000") (fun _ => false)
    (str "GET / HTTP/1.1\r\nHost: my.test") (by decide) (by decide)
